import Mathlib

/-!
Verification development for the audio response chunking, buffering and
interruption-control subsystem of the SovaServer repository.

The definitions below are shallow embeddings of the JavaScript sources
`src/websocket/handlers/VoiceHandlerLive.js` and
`src/services/GeminiLiveService.js`.  Buffers of bytes are modelled as
`List Nat` (each element a byte value; base64 encoding/decoding, which is a
bijection on byte strings, is modelled as the identity).  JavaScript numbers
used for chunk-size arithmetic are modelled as `ℚ` where the source computes
with fractional durations and as `Nat` where it computes with byte counts.
-/

/-- Little-endian 16-bit encoding of `n`, as written by `DataView.setUint16`
(`GeminiLiveService.js`, `createWAVFile`). -/
def le16 (n : Nat) : List Nat :=
  [n % 256, (n / 256) % 256]

/-- Little-endian 32-bit encoding of `n`, as written by
`Buffer.writeUInt32LE` / `DataView.setUint32 (littleEndian)`. -/
def le32 (n : Nat) : List Nat :=
  [n % 256, (n / 256) % 256, (n / 65536) % 256, (n / 16777216) % 256]

/-- `buf.writeUInt32LE value offset`: overwrite the 4 bytes of `b` starting
at `offset` with the little-endian encoding of `value`. -/
def writeUInt32LE (b : List Nat) (value offset : Nat) : List Nat :=
  b.take offset ++ le32 value ++ b.drop (offset + 4)

/-- Pad a list with zero bytes up to length `n` (the unwritten remainder of a
`Buffer.alloc n`, which is zero-filled). -/
def padZero (l : List Nat) (n : Nat) : List Nat :=
  l ++ List.replicate (n - l.length) 0

/-- The WAV detection used throughout both source files:
length at least 12, bytes 0..3 spell `RIFF` and bytes 8..11 spell `WAVE`. -/
def isWAV (b : List Nat) : Bool :=
  decide (12 ≤ b.length) &&
  decide (b.take 4 = [82, 73, 70, 70]) &&
  decide ((b.drop 8).take 4 = [87, 65, 86, 69])

/-- The 44-byte PCM WAV header written by `GeminiLiveService.createWAVFile`
(`GeminiLiveService.js` lines 457-478), for a data region of `dataSize` bytes. -/
def wavHeader44 (sampleRate channels bitsPerSample dataSize : Nat) : List Nat :=
  [82, 73, 70, 70]                                       -- "RIFF"
    ++ le32 (36 + dataSize)                              -- file size
    ++ [87, 65, 86, 69]                                  -- "WAVE"
    ++ [102, 109, 116, 32]                               -- "fmt "
    ++ le32 16                                           -- fmt chunk size
    ++ le16 1                                            -- PCM format tag
    ++ le16 channels
    ++ le32 sampleRate
    ++ le32 (sampleRate * channels * (bitsPerSample / 8)) -- byte rate
    ++ le16 (channels * (bitsPerSample / 8))             -- block align
    ++ le16 bitsPerSample
    ++ [100, 97, 116, 97]                                -- "data"
    ++ le32 dataSize

/-- `GeminiLiveService.createWAVFile audioData sampleRate channels bitsPerSample`:
the fixed 44-byte PCM WAV header followed by the raw samples
(`GeminiLiveService.js` lines 453-486). -/
def createWAVFile (audioData : List Nat) (sampleRate channels bitsPerSample : Nat) :
    List Nat :=
  wavHeader44 sampleRate channels bitsPerSample audioData.length ++ audioData

/-- `chunkingConfig.bytesPerSecond` = 48000 * 1 * 2 (`VoiceHandlerLive.js` line 23). -/
def bytesPerSecond : Nat := 96000

/-- Default chunk size used by `splitAudioIntoChunks` when no size is supplied:
`targetChunkDuration (1.0 s) * bytesPerSecond` (`VoiceHandlerLive.js` line 1097). -/
def defaultChunkSize : Nat := 96000

/-- The slicing loop `for (let i = 0; i < xs.length; i += step) push (xs.slice i (i+step))`
of `splitAudioIntoChunks`.  The loop advances by `step` per iteration, so it
terminates only when `step > 0`; `fuel` bounds the number of iterations and
`none` models divergence (fuel exhausted before the data ran out). -/
def sliceLoop (step : Nat) : Nat → List Nat → Option (List (List Nat))
  | _, [] => some []
  | 0, _ :: _ => none
  | fuel + 1, x :: xs =>
    match sliceLoop step fuel ((x :: xs).drop step) with
    | none => none
    | some rest => some ((x :: xs).take step :: rest)

/-- Re-wrap one sliced data region as a standalone WAV chunk
(`VoiceHandlerLive.js` lines 1121-1130): allocate a zeroed 44-byte header,
copy the original header into it, overwrite bytes 4..7 with `36 + len` and
bytes 40..43 with `len`, then append the data slice. -/
def rewrapChunk (header d : List Nat) : List Nat :=
  writeUInt32LE (writeUInt32LE (padZero header 44) (36 + d.length) 4) d.length 40 ++ d

/-- The chunk-size defaulting of `splitAudioIntoChunks`
(`VoiceHandlerLive.js` lines 1096-1098): `if (!chunkSize) chunkSize = targetChunkDuration * bytesPerSecond`.
An omitted argument and a supplied `0` are both falsy in JS and take the default. -/
def effectiveChunkSize (arg : Option Nat) : Nat :=
  match arg with
  | none => defaultChunkSize
  | some 0 => defaultChunkSize
  | some n => n

/-- `VoiceHandlerLive.splitAudioIntoChunks audioData chunkSize`
(lines 1088-1156).  `none` for the `chunkSize` argument models the omitted
parameter; a supplied `0` is falsy in JS and also takes the default.  The
result is `none` when the source loop would not terminate (WAV input with
`chunkSize - 44 ≤ 0` and non-empty data). -/
def splitAudioIntoChunks (audioData : List Nat) (chunkSizeArg : Option Nat) :
    Option (List (List Nat)) :=
  if audioData.isEmpty then some [] else
  let chunkSize := effectiveChunkSize chunkSizeArg
  if isWAV audioData then
    let header := audioData.take 44
    let data := audioData.drop 44
    let dataChunkSize := chunkSize - 44
    match sliceLoop dataChunkSize data.length data with
    | none => none
    | some ds => some (ds.map (fun d => rewrapChunk header d))
  else
    sliceLoop chunkSize audioData.length audioData

/-- The merged header built by `combineAudioChunks`
(`GeminiLiveService.js` lines 1060-1064, identically `VoiceHandlerLive.js`
lines 953-957): zeroed 44-byte buffer, bytes 0..3 copied from the source
header, bytes 4..7 `= 36 + dataLen`, bytes 8..43 copied from the source
header, then bytes 40..43 overwritten with `dataLen`. -/
def mergedHeader (header : List Nat) (dataLen : Nat) : List Nat :=
  writeUInt32LE
    (padZero (header.take 4) 4 ++ le32 (36 + dataLen)
      ++ padZero ((header.drop 8).take 36) 36)
    dataLen 40

/-- `GeminiLiveService.combineAudioChunks chunks` (lines 1038-1074; the copy in
`VoiceHandlerLive.js` lines 930-971 is the same computation): `null` on an
empty list, the single chunk unchanged on a singleton; otherwise, for WAV
input, one corrected header followed by the concatenation of every chunk's
bytes after offset 44, and for raw input the plain concatenation. -/
def combineAudioChunks (chunks : List (List Nat)) : Option (List Nat) :=
  match chunks with
  | [] => none
  | [c] => some c
  | first :: next :: rest =>
    if isWAV first then
      let header := first.take 44
      let combinedData := ((first :: next :: rest).map (fun c => c.drop 44)).flatten
      some (mergedHeader header combinedData.length ++ combinedData)
    else
      some (first :: next :: rest).flatten

/-- JavaScript `Math.round` (round half toward positive infinity) on an exact
rational. -/
def jsRound (x : ℚ) : ℤ := ⌊x + 1 / 2⌋

/-- The duration-banded target chunk duration chosen by
`calculateOptimalChunkSize` (`VoiceHandlerLive.js` lines 983-995). -/
def bandedTargetDuration (d : ℚ) : ℚ :=
  if d ≤ 2 then max (1 / 2) (d / 3)
  else if d ≤ 5 then max 1 (d / 4)
  else if d ≤ 10 then 9 / 5
  else min 3 (d / 5)

/-- `VoiceHandlerLive.calculateOptimalChunkSize` (lines 974-1039), as a
function of the estimated total duration `d` (seconds).  Returns the chunk
size in bytes: banded target duration, byte conversion with `Math.round`,
clamp to `[minChunkDuration, maxChunkDuration] * bytesPerSecond`
= `[48000, 288000]`, then the latency-target adjustment
(`maxLatencyTarget = 1500 ms`). -/
def calculateOptimalChunkSize (d : ℚ) : ℚ :=
  let targetChunkDuration := bandedTargetDuration d
  let chunkSizeBytes : ℚ := (jsRound (targetChunkDuration * 96000) : ℚ)
  let minChunkSize : ℚ := (1 / 2) * 96000
  let maxChunkSize : ℚ := 3 * 96000
  let finalChunkSize := max minChunkSize (min maxChunkSize chunkSizeBytes)
  let estimatedLatency := finalChunkSize / 96000 * 1000
  if estimatedLatency > 1500 then
    let targetBytes : ℚ := (1500 / 1000) * 96000
    max minChunkSize (min maxChunkSize targetBytes)
  else finalChunkSize

/-- The chunk-size computation as described by the specification claim,
written independently from the claim's own words: band selection on `d`,
conversion at the configured byte rate, clamping to
`[minChunkDuration * bytesPerSecond, maxChunkDuration * bytesPerSecond]`,
and the shrink to `(budget/1000) * bytesPerSecond` (same clamp) when the
implied playback delay exceeds the 1500 ms budget. -/
def chunkSizeClaim (d : ℚ) : ℚ :=
  let band :=
    if d ≤ 2 then max (1 / 2) (d / 3)
    else if d ≤ 5 then max 1 (d / 4)
    else if d ≤ 10 then 9 / 5
    else min 3 (d / 5)
  let clamp : ℚ → ℚ := fun x => max ((1 / 2) * 96000) (min (3 * 96000) x)
  let clamped := clamp ((jsRound (band * 96000) : ℚ))
  if clamped / 96000 * 1000 > 1500 then clamp ((1500 / 1000) * 96000) else clamped

/-- One `audio-chunk` event as emitted to the client socket
(`sessionId` omitted: all events of one response share it). -/
structure AudioChunkEvent where
  chunkIndex : Nat
  totalChunks : Nat
  isLastChunk : Bool
  audioData : List Nat
deriving DecidableEq

/-- The `audio-chunk` events produced by `streamChunksSequential` for a chunk
array (`VoiceHandlerLive.js` lines 640-669): chunk `i` is emitted with
`chunkIndex = i`, `totalChunks = chunks.length`,
`isLastChunk = (i === chunks.length - 1)`.  `streamChunksMultiport`
(lines 549-581) emits events with exactly the same fields for the same array,
only interleaved across lanes, so this list is also the multiset of events of
the multiport path. -/
def sequentialChunkEvents (chunks : List (List Nat)) : List AudioChunkEvent :=
  (List.range chunks.length).map fun i =>
    { chunkIndex := i
      totalChunks := chunks.length
      isLastChunk := decide (i = chunks.length - 1)
      audioData := chunks.getD i [] }

/-- The `audio-chunk` events `handleAudioChunkFromGemini` emits to the client
for one split response, with the default configuration
(`immediateFirstChunk = true`, `VoiceHandlerLive.js` lines 429-460):
the first chunk is emitted immediately with `chunkIndex = 0` and
`totalChunks = chunks.length`, then `chunks.shift()` removes it and the
REMAINING array is handed to the streaming path, which computes its indices
and totals from that shifted array. -/
def clientAudioChunkEvents (chunks : List (List Nat)) : List AudioChunkEvent :=
  match chunks with
  | [] => []
  | c0 :: rest =>
    { chunkIndex := 0
      totalChunks := (c0 :: rest).length
      isLastChunk := decide ((c0 :: rest).length = 1)
      audioData := c0 } :: sequentialChunkEvents rest

/-- One entry of a multiport lane bucket (`VoiceHandlerLive.js` lines 551-555):
`{ chunk, index, isLastChunk }`. -/
structure PortChunk where
  index : Nat
  chunk : List Nat
  isLast : Bool
deriving DecidableEq

/-- `portChunks[l].push(x)`: append `x` to bucket `l` of the bucket array. -/
def pushAt (buckets : List (List PortChunk)) (l : Nat) (x : PortChunk) :
    List (List PortChunk) :=
  buckets.set l (buckets.getD l [] ++ [x])

/-- The enumerated chunk records pushed by the distribution loop of
`streamChunksMultiport` (lines 549-556). -/
def portChunkItems (chunks : List (List Nat)) : List PortChunk :=
  chunks.enum.map fun p =>
    { index := p.1, chunk := p.2, isLast := decide (p.1 = chunks.length - 1) }

/-- The round-robin distribution loop of `streamChunksMultiport`
(lines 546-556): start from `maxPorts` empty buckets and push chunk `i` onto
bucket `i % maxPorts`, in increasing `i`. -/
def distributeChunks (chunks : List (List Nat)) (laneCount : Nat) :
    List (List PortChunk) :=
  (portChunkItems chunks).foldl (fun bs x => pushAt bs (x.index % laneCount) x)
    (List.replicate laneCount [])

/-- Emission trace (pairs `(chunkIndex, audioData)`) of a multiport delivery
that hits a transmission error and falls back.  `sentBeforeError` lists the
unit indices whose lane emits completed before the failing emit (the lanes
run concurrently, so which indices those are depends on the schedule; each
index is emitted at most once by the multiport phase because it sits in
exactly one lane bucket).  On the error, the `catch` of
`streamChunksMultiport` (lines 618-627) calls
`streamChunksSequential(socket, sessionId, chunks)` with the FULL chunk
array, whose loop (lines 640-669) emits every chunk once in index order. -/
def multiportFallbackTrace (chunks : List (List Nat)) (sentBeforeError : List Nat) :
    List (Nat × List Nat) :=
  sentBeforeError.map (fun i => (i, chunks.getD i [])) ++ chunks.enum

/-- The observable steps of `VoiceHandlerLive.handleInterruption`
(lines 738-823), in program order. -/
inductive InterruptionStep where
  | emitConfirmed            -- socket.emit('interruption-confirmed'), line 748
  | upstreamInterruptAttempt -- await geminiLiveService.session.interrupt(), line 775
  | emitSuccessful           -- socket.emit('interruption-successful'), line 779
  | emitPartial              -- socket.emit('interruption-partial'), line 788
  | emitHandled              -- socket.emit('interruption-handled'), line 801
deriving DecidableEq

/-- The step trace of `handleInterruption` for a session found in the
registry.  `hasUpstreamSession` is `geminiLiveService.session !== null`;
`upstreamOk` tells whether the upstream `session.interrupt()` call returns
normally (`true`) or throws (`false`, caught by the inner `try`). -/
def handleInterruption (hasUpstreamSession upstreamOk : Bool) :
    List InterruptionStep :=
  [InterruptionStep.emitConfirmed]
    ++ (if hasUpstreamSession then
          [InterruptionStep.upstreamInterruptAttempt]
            ++ (if upstreamOk then [InterruptionStep.emitSuccessful]
                else [InterruptionStep.emitPartial])
        else [])
    ++ [InterruptionStep.emitHandled]

/-- The per-conversation state relevant to response accumulation and
client-side interruption, combining `GeminiLiveService.currentAudioResponse`
with the handler's per-session `isInterrupted` flag.

* `buf` — `currentAudioResponse.chunks`: the WAV-wrapped fragments collected
  so far (`GeminiLiveService.js` line 366);
* `deadline` — the target time of `responseCompletionTimeout`
  (`scheduleResponseCompletion`, lines 676-686), `none` when no timer is armed;
* `interrupted` — `sessionInfo.isInterrupted`
  (`VoiceHandlerLive.js` lines 403-407, 759);
* `out` — the `(time, complete response)` pairs actually streamed to the
  client as `audio-chunk` events. -/
structure ServiceState where
  buf : List (List Nat)
  deadline : Option Nat
  interrupted : Bool
  out : List (Nat × List Nat)
deriving DecidableEq

/-- Input events of the timed model. -/
inductive LiveEvent where
  /-- an upstream audio fragment arriving in `handleServerMessage`
  (`GeminiLiveService.js` lines 352-378) -/
  | fragment (bytes : List Nat)
  /-- the client's `interrupt` event handled by
  `VoiceHandlerLive.handleInterruption` (lines 738-823) -/
  | clientInterrupt
deriving DecidableEq

/-- The completion timer firing: `completeAudioResponse`
(`GeminiLiveService.js` lines 689-762) followed by the delivery decision of
`handleAudioChunkFromGemini` (`VoiceHandlerLive.js` lines 402-407).
With an empty buffer it returns at once.  Otherwise the fragments are merged
by `combineAudioChunks`; if `sessionInfo.isInterrupted` is set the handler
skips the response AND resets the flag, else the response is streamed to the
client.  Either way `clearCurrentAudioResponse` empties the buffer. -/
def fireCompletion (t : Nat) (s : ServiceState) : ServiceState :=
  if s.buf.isEmpty then { s with deadline := none }
  else
    let resp := (combineAudioChunks s.buf).getD []
    if s.interrupted then
      { buf := [], deadline := none, interrupted := false, out := s.out }
    else
      { buf := [], deadline := none, interrupted := false, out := s.out ++ [(t, resp)] }

/-- Fire the pending completion timer if its deadline is at or before `t`. -/
def fireIfDue (t : Nat) (s : ServiceState) : ServiceState :=
  match s.deadline with
  | some d => if d ≤ t then fireCompletion d { s with deadline := none } else s
  | none => s

/-- Process one timestamped input event.  A timer due before the event fires
first.  A fragment is WAV-wrapped by `processAudioResponse`
(48 kHz, mono, 16-bit; `GeminiLiveService.js` lines 429-450), appended to the
buffer, and re-arms the 2000 ms idle timer (`timeoutDuration`, line 23).
The client's interrupt sets `sessionInfo.isInterrupted`
(`VoiceHandlerLive.js` line 759); `handleInterruption` clears the handler's
input `audioQueue` and the service's delivery `audioQueue` (line 769) but
NOT `currentAudioResponse.chunks` and NOT the completion timer. -/
def applyEvent (s : ServiceState) (e : Nat × LiveEvent) : ServiceState :=
  let s := fireIfDue e.1 s
  match e.2 with
  | LiveEvent.fragment bytes =>
    { s with buf := s.buf ++ [createWAVFile bytes 48000 1 16]
             deadline := some (e.1 + 2000) }
  | LiveEvent.clientInterrupt => { s with interrupted := true }

/-- After the last input event the upstream is silent forever, so a pending
timer fires at its deadline. -/
def finalizeRun (s : ServiceState) : ServiceState :=
  match s.deadline with
  | some d => fireCompletion d { s with deadline := none }
  | none => s

/-- Run the service from the initial state over a time-ordered event list. -/
def runService (events : List (Nat × LiveEvent)) : ServiceState :=
  finalizeRun (events.foldl applyEvent
    { buf := [], deadline := none, interrupted := false, out := [] })

/-! ### Basic facts about the byte-level codec -/

lemma le16_length (n : Nat) : (le16 n).length = 2 := rfl

lemma le32_length (n : Nat) : (le32 n).length = 4 := rfl

lemma padZero_length {l : List Nat} {n : Nat} (h : l.length ≤ n) :
    (padZero l n).length = n := by
  simp [padZero]; omega

lemma writeUInt32LE_length {b : List Nat} {v offset : Nat}
    (h : offset + 4 ≤ b.length) : (writeUInt32LE b v offset).length = b.length := by
  simp [writeUInt32LE, le32]; omega

lemma wavHeader44_length (sr ch bps n : Nat) :
    (wavHeader44 sr ch bps n).length = 44 := by
  simp [wavHeader44, le32, le16]

lemma createWAVFile_drop_44 (f : List Nat) (sr ch bps : Nat) :
    (createWAVFile f sr ch bps).drop 44 = f := by
  rw [createWAVFile, ← wavHeader44_length sr ch bps f.length, List.drop_left]

lemma createWAVFile_take_44 (f : List Nat) (sr ch bps : Nat) :
    (createWAVFile f sr ch bps).take 44 = wavHeader44 sr ch bps f.length := by
  rw [createWAVFile, ← wavHeader44_length sr ch bps f.length, List.take_left]

lemma createWAVFile_length (f : List Nat) (sr ch bps : Nat) :
    (createWAVFile f sr ch bps).length = 44 + f.length := by
  rw [createWAVFile]
  simp [wavHeader44_length]

lemma isWAV_createWAVFile (f : List Nat) (sr ch bps : Nat) :
    isWAV (createWAVFile f sr ch bps) = true := by
  have h1 : 12 ≤ (createWAVFile f sr ch bps).length := by
    rw [createWAVFile_length]; omega
  have h2 : (createWAVFile f sr ch bps).take 4 = [82, 73, 70, 70] := rfl
  have h3 : ((createWAVFile f sr ch bps).drop 8).take 4 = [87, 65, 86, 69] := rfl
  simp [isWAV, h1, h2, h3]

/-! ### The slicing loop -/

/-- Concatenating the slices produced by the loop recovers the input. -/
lemma sliceLoop_flatten {step : Nat} :
    ∀ {fuel : Nat} {xs : List Nat} {ds : List (List Nat)},
      sliceLoop step fuel xs = some ds → ds.flatten = xs := by
  intro fuel
  induction fuel with
  | zero =>
    intro xs ds h
    cases xs with
    | nil => simp [sliceLoop] at h; subst h; rfl
    | cons a l => simp [sliceLoop] at h
  | succ n ih =>
    intro xs ds h
    cases xs with
    | nil => simp [sliceLoop] at h; subst h; rfl
    | cons a l =>
      rw [sliceLoop] at h
      cases hrec : sliceLoop step n ((a :: l).drop step) with
      | none => rw [hrec] at h; simp at h
      | some rest =>
        rw [hrec] at h
        simp at h
        subst h
        simp [List.flatten_cons, ih hrec]

/-- With a positive step and enough fuel the loop terminates. -/
lemma sliceLoop_isSome {step : Nat} (hstep : 0 < step) :
    ∀ {fuel : Nat} {xs : List Nat}, xs.length ≤ fuel →
      (sliceLoop step fuel xs).isSome := by
  intro fuel
  induction fuel with
  | zero =>
    intro xs h
    have : xs = [] := List.eq_nil_of_length_eq_zero (by omega)
    subst this; simp [sliceLoop]
  | succ n ih =>
    intro xs h
    cases xs with
    | nil => simp [sliceLoop]
    | cons a l =>
      rw [sliceLoop]
      have hlen : ((a :: l).drop step).length ≤ n := by
        simp [List.length_drop]
        simp at h
        omega
      cases hrec : sliceLoop step n ((a :: l).drop step) with
      | none => exact absurd (hrec ▸ ih hlen) (by simp)
      | some rest => simp

lemma rewrapChunk_header_len {header : List Nat} (h : header.length ≤ 44)
    (d : List Nat) :
    (writeUInt32LE (writeUInt32LE (padZero header 44) (36 + d.length) 4)
      d.length 40).length = 44 := by
  have h1 : (padZero header 44).length = 44 := padZero_length h
  have h2 : (writeUInt32LE (padZero header 44) (36 + d.length) 4).length = 44 :=
    (writeUInt32LE_length (by rw [h1]; omega)).trans h1
  exact (writeUInt32LE_length (by rw [h2]; try omega)).trans h2

lemma rewrapChunk_drop_44 {header : List Nat} (h : header.length ≤ 44)
    (d : List Nat) : (rewrapChunk header d).drop 44 = d :=
  List.drop_left' (rewrapChunk_header_len h d)

lemma effectiveChunkSize_some_pos {n : Nat} (h : 0 < n) :
    effectiveChunkSize (some n) = n := by
  cases n with
  | zero => omega
  | succ m => rfl

/-- C10 helper: with a positive effective step the split returns a result. -/
lemma splitAudioIntoChunks_isSome_of_step (audioData : List Nat) (arg : Option Nat)
    (hstep : (if isWAV audioData then 44 else 0) < effectiveChunkSize arg) :
    (splitAudioIntoChunks audioData arg).isSome := by
  rw [splitAudioIntoChunks]
  cases he : audioData.isEmpty with
  | true => simp
  | false =>
    simp only [Bool.false_eq_true, if_false]
    cases hw : isWAV audioData with
    | true =>
      simp only [hw, if_true]
      rw [hw, if_pos rfl] at hstep
      have hsome : (sliceLoop (effectiveChunkSize arg - 44)
          (audioData.drop 44).length (audioData.drop 44)).isSome :=
        sliceLoop_isSome (by omega) (le_refl (audioData.drop 44).length)
      obtain ⟨ds, hds⟩ := Option.isSome_iff_exists.mp hsome
      rw [hds]
      simp
    | false =>
      simp only [hw, Bool.false_eq_true, if_false]
      rw [hw] at hstep
      simp only [Bool.false_eq_true, if_false] at hstep
      exact sliceLoop_isSome hstep (le_refl audioData.length)

/-- C10: `splitAudioIntoChunks` terminates (produces a finite chunk list)
whenever the chunk size is omitted, or exceeds the 44 header bytes for
WAV-container input, or is positive for headerless input.  These bounds make
the slicing loops, which advance by `chunkSize - 44` resp. `chunkSize` bytes
per iteration, progress. -/
theorem c10_splitAudioIntoChunks_terminates (audioData : List Nat) :
    (splitAudioIntoChunks audioData none).isSome ∧
    (∀ csize : Nat, isWAV audioData = true → 44 < csize →
      (splitAudioIntoChunks audioData (some csize)).isSome) ∧
    (∀ csize : Nat, isWAV audioData = false → 0 < csize →
      (splitAudioIntoChunks audioData (some csize)).isSome) := by
  refine ⟨?_, ?_, ?_⟩
  · apply splitAudioIntoChunks_isSome_of_step
    cases hw : isWAV audioData <;> simp [effectiveChunkSize, defaultChunkSize]
  · intro csize hw hc
    apply splitAudioIntoChunks_isSome_of_step
    rw [hw, if_pos rfl, effectiveChunkSize_some_pos (by omega)]
    exact hc
  · intro csize hw hc
    apply splitAudioIntoChunks_isSome_of_step
    rw [hw]
    simp only [Bool.false_eq_true, if_false]
    rw [effectiveChunkSize_some_pos hc]
    exact hc

/-- Witness for C10 at concrete inputs. -/
theorem c10_witness :
    isWAV (createWAVFile [1, 2, 3, 4, 5] 48000 1 16) = true ∧ 44 < 46 ∧
    (splitAudioIntoChunks (createWAVFile [1, 2, 3, 4, 5] 48000 1 16)
      (some 46)).isSome ∧
    isWAV [9, 9, 9] = false ∧ 0 < 2 ∧
    (splitAudioIntoChunks [9, 9, 9] (some 2)).isSome :=
  ⟨by decide, by decide,
    (c10_splitAudioIntoChunks_terminates _).2.1 46 (by decide) (by decide),
    by decide, by decide,
    (c10_splitAudioIntoChunks_terminates _).2.2 2 (by decide) (by decide)⟩

/-- C2: lossless re-segmentation.  For every audio response and every positive
chunk size, concatenating in index order the raw sample regions of the
delivery units produced by `splitAudioIntoChunks` (bytes after the 44-byte
header for WAV input, the unit bytes themselves for headerless input) yields
exactly the original response's raw sample region. -/
theorem c2_lossless_resegmentation (audioData : List Nat) (csize : Nat)
    (chunks : List (List Nat)) (hpos : 0 < csize)
    (hsplit : splitAudioIntoChunks audioData (some csize) = some chunks) :
    (chunks.map (fun c => if isWAV audioData then c.drop 44 else c)).flatten
      = (if isWAV audioData then audioData.drop 44 else audioData) := by
  rw [splitAudioIntoChunks] at hsplit
  by_cases he : audioData.isEmpty
  · have ha : audioData = [] := by
      cases audioData with
      | nil => rfl
      | cons x l => simp [List.isEmpty] at he
    subst ha
    simp at hsplit
    subst hsplit
    simp [isWAV]
  · rw [if_neg (by simpa using he)] at hsplit
    cases hw : isWAV audioData with
    | false =>
      rw [hw] at hsplit
      simp only [Bool.false_eq_true, if_false] at hsplit ⊢
      rw [List.map_id']
      exact sliceLoop_flatten hsplit
    | true =>
      rw [hw] at hsplit
      simp only [if_true] at hsplit ⊢
      cases hs : sliceLoop (effectiveChunkSize (some csize) - 44)
          (audioData.drop 44).length (audioData.drop 44) with
      | none => rw [hs] at hsplit; simp at hsplit
      | some ds =>
        rw [hs] at hsplit
        simp only [Option.some.injEq] at hsplit
        subst hsplit
        rw [List.map_map]
        have hmap : ds.map ((fun c => c.drop 44) ∘ rewrapChunk (audioData.take 44))
            = ds.map id := by
          apply List.map_congr_left
          intro d _
          exact rewrapChunk_drop_44 (by simpa using List.length_take_le 44 audioData) d
        rw [hmap, List.map_id]
        exact sliceLoop_flatten hs

/-- A concrete WAV response: five sample bytes wrapped by `createWAVFile`. -/
def sampleWav : List Nat := createWAVFile [1, 2, 3, 4, 5] 48000 1 16

/-- The chunks `splitAudioIntoChunks` produces for `sampleWav` at chunk size 46. -/
def sampleWavChunks : List (List Nat) :=
  (splitAudioIntoChunks sampleWav (some 46)).getD []

/-- Witness for C2 at a concrete WAV input and chunk size. -/
theorem c2_witness :
    (sampleWavChunks.map (fun c => if isWAV sampleWav then c.drop 44 else c)).flatten
      = (if isWAV sampleWav then sampleWav.drop 44 else sampleWav) :=
  c2_lossless_resegmentation sampleWav 46 sampleWavChunks (by decide) (by decide)

/-- C8: the chunk-size computation follows the duration-banded policy stated
by the specification (the code function coincides with `chunkSizeClaim`,
which is written from the claim's wording), and the returned chunk size
always lies within the clamp range
`[minChunkDuration * bytesPerSecond, maxChunkDuration * bytesPerSecond]
= [48000, 288000]`. -/
theorem c8_chunk_size_banding (d : ℚ) :
    calculateOptimalChunkSize d = chunkSizeClaim d ∧
    48000 ≤ calculateOptimalChunkSize d ∧
    calculateOptimalChunkSize d ≤ 288000 := by
  have hclamp : ∀ x : ℚ, 48000 ≤ max (1 / 2 * 96000) (min (3 * 96000) x) ∧
      max (1 / 2 * 96000) (min (3 * 96000) x) ≤ 288000 := by
    intro x
    constructor
    · rw [show (48000 : ℚ) = 1 / 2 * 96000 by norm_num]
      exact le_max_left _ _
    · exact max_le (by norm_num) (le_trans (min_le_left _ _) (by norm_num))
  have hrange : 48000 ≤ calculateOptimalChunkSize d ∧
      calculateOptimalChunkSize d ≤ 288000 := by
    rw [calculateOptimalChunkSize]
    dsimp only
    split
    · exact hclamp _
    · exact hclamp _
  exact ⟨rfl, hrange.1, hrange.2⟩

/-- C9: whenever the interrupt event is handled for a session with an
established upstream session, the client is acknowledged regardless of the
upstream outcome: `interruption-confirmed` is emitted first (before the
upstream interrupt is attempted), `interruption-handled` is emitted last
(after it), and when the upstream interrupt call throws an
`interruption-partial` event reporting the partial success is additionally
emitted — never silence. -/
theorem c9_interruption_acknowledgement (upstreamOk : Bool) :
    (handleInterruption true upstreamOk).head? = some InterruptionStep.emitConfirmed ∧
    InterruptionStep.upstreamInterruptAttempt ∈ (handleInterruption true upstreamOk).tail ∧
    (handleInterruption true upstreamOk).getLast? = some InterruptionStep.emitHandled ∧
    (upstreamOk = false →
      InterruptionStep.emitPartial ∈ handleInterruption true upstreamOk) := by
  cases upstreamOk with
  | true => exact ⟨by decide, by decide, by decide, fun h => absurd h (by decide)⟩
  | false => exact ⟨by decide, by decide, by decide, fun _ => by decide⟩

/-- Witness for C9 at the failing-upstream case. -/
theorem c9_witness :
    (handleInterruption true false).head? = some InterruptionStep.emitConfirmed ∧
    InterruptionStep.emitPartial ∈ handleInterruption true false :=
  ⟨(c9_interruption_acknowledgement false).1,
    (c9_interruption_acknowledgement false).2.2.2 rfl⟩

/-- C3 is violated by the code: with the default configuration
(`immediateFirstChunk = true`), a response that splits into two delivery
units — e.g. headerless input `[1, 2, 3]` at chunk size 2, which splits into
`[[1, 2], [3]]` — is emitted as an immediate event with `chunkIndex = 0`,
`totalChunks = 2`, `isLastChunk = false`, followed by an event with
`chunkIndex = 0`, `totalChunks = 1`, `isLastChunk = true`: after
`chunks.shift()` the streaming path re-derives indices and totals from the
shifted array (`VoiceHandlerLive.js` lines 449, 645-649).  The indices are
therefore not pairwise distinct, `totalChunks` is not constantly 2, no event
carries `chunkIndex = 1`, and `isLastChunk` is set on a unit that does not
have the highest index of the response. -/
theorem c3_chunk_index_rebased_after_shift :
    splitAudioIntoChunks [1, 2, 3] (some 2) = some [[1, 2], [3]] ∧
    clientAudioChunkEvents [[1, 2], [3]] =
      [{ chunkIndex := 0, totalChunks := 2, isLastChunk := false, audioData := [1, 2] },
       { chunkIndex := 0, totalChunks := 1, isLastChunk := true, audioData := [3] }] ∧
    ¬ ((clientAudioChunkEvents [[1, 2], [3]]).map AudioChunkEvent.chunkIndex).Nodup ∧
    ¬ (∀ e ∈ clientAudioChunkEvents [[1, 2], [3]], e.totalChunks = 2) := by
  refine ⟨by decide, by decide, by decide, ?_⟩
  intro h
  have := h { chunkIndex := 0, totalChunks := 1, isLastChunk := true, audioData := [3] }
    (by decide)
  simp at this

/-- C1 is violated by the code: `handleInterruption` sets the one-shot
`sessionInfo.isInterrupted` flag but clears neither
`currentAudioResponse.chunks` nor the idle-completion timer, and
`handleAudioChunkFromGemini` resets the flag on the first completed response
it skips.  In the trace below a fragment of the active turn arrives at t=0,
the client interrupts at t=100, and a delayed fragment of the same
(interrupted) turn arrives at t=2500: the completion at t=2000 is suppressed
(consuming the flag), and the completion at t=4500 emits the late fragment's
audio to the client as `audio-chunk` events — after the interruption, for
the generation active at interruption time. -/
theorem c1_interrupted_turn_audio_leaks :
    (runService [(0, LiveEvent.fragment [7]), (100, LiveEvent.clientInterrupt),
        (2500, LiveEvent.fragment [8])]).out
      = [(4500, createWAVFile [8] 48000 1 16)] ∧
    (100 : Nat) < 4500 := by
  exact ⟨by decide, by decide⟩

lemma padZero_eq_of_length {l : List Nat} {n : Nat} (h : l.length = n) :
    padZero l n = l := by
  simp [padZero, h]

lemma rewrapChunk_decomp {header : List Nat} (h : header.length = 44) (d : List Nat) :
    rewrapChunk header d
      = header.take 4 ++ le32 (36 + d.length) ++ (header.drop 8).take 32
          ++ le32 d.length ++ d := by
  rw [rewrapChunk, padZero_eq_of_length h, writeUInt32LE, writeUInt32LE]
  simp [List.take_append_eq_append_take, List.drop_append_eq_append_drop,
    List.length_take, List.length_drop, List.take_take, le32_length, h,
    List.drop_eq_nil_of_le, List.take_of_length_le, List.drop_take]

lemma mergedHeader_decomp {header : List Nat} (h : header.length = 44) (n : Nat) :
    mergedHeader header n
      = header.take 4 ++ le32 (36 + n) ++ (header.drop 8).take 32 ++ le32 n := by
  rw [mergedHeader, writeUInt32LE,
    padZero_eq_of_length (l := header.take 4) (by simp [List.length_take, h]),
    padZero_eq_of_length
      (l := (header.drop 8).take 36) (by simp [List.length_take, List.length_drop, h])]
  simp [List.take_append_eq_append_take, List.drop_append_eq_append_drop,
    List.length_take, List.length_drop, List.take_take, le32_length, h,
    List.drop_eq_nil_of_le, List.take_of_length_le, List.drop_take]

/-- Field extraction from the common re-wrapped shape
`A ++ le32 (36 + n) ++ B ++ le32 n ++ d` with `|A| = 4`, `|B| = 32`. -/
lemma headerFields {A B d c : List Nat} {n : Nat}
    (hA : A.length = 4) (hB : B.length = 32)
    (hc : c = A ++ le32 (36 + n) ++ B ++ le32 n ++ d) :
    (c.take 8).drop 4 = le32 (36 + n) ∧
    (c.take 44).drop 40 = le32 n ∧
    c.take 4 = A ∧
    (c.take 40).drop 8 = B ∧
    c.drop 44 = d := by
  subst hc
  refine ⟨?_, ?_, ?_, ?_, ?_⟩ <;>
    simp [List.take_append_eq_append_take, List.drop_append_eq_append_drop,
      hA, hB, le32_length, List.take_take, List.drop_take,
      List.drop_eq_nil_of_le, List.take_of_length_le]

lemma take_44_drop_8_take_32 (l : List Nat) :
    ((l.take 44).drop 8).take 32 = (l.take 40).drop 8 := by
  simp [List.drop_take, List.take_take]
/-- C4: header correctness.  (1) Every WAV delivery unit produced by slicing a
container response (data at offset 44) carries a header whose file-size field
(bytes 4..7, little-endian) is `36 +` its data length, whose data-chunk-size
field (bytes 40..43) is its data length, and whose remaining bytes (0..3 and
8..39) are copied verbatim from the source header.  (2) The same holds for
the merged WAV that `combineAudioChunks` builds from two or more fragment
containers, relative to the first fragment's header.  (3) `createWAVFile`
writes the two size fields the same way. -/
theorem c4_header_correctness :
    (∀ (audioData : List Nat) (arg : Option Nat) (chunks : List (List Nat))
        (c : List Nat),
      isWAV audioData = true → 44 ≤ audioData.length →
      splitAudioIntoChunks audioData arg = some chunks → c ∈ chunks →
        (c.take 8).drop 4 = le32 (36 + (c.drop 44).length) ∧
        (c.take 44).drop 40 = le32 (c.drop 44).length ∧
        c.take 4 = audioData.take 4 ∧
        (c.take 40).drop 8 = (audioData.take 40).drop 8) ∧
    (∀ (first next : List Nat) (rest : List (List Nat)) (combined : List Nat),
      isWAV first = true → 44 ≤ first.length →
      combineAudioChunks (first :: next :: rest) = some combined →
        (combined.take 8).drop 4 = le32 (36 + (combined.drop 44).length) ∧
        (combined.take 44).drop 40 = le32 (combined.drop 44).length ∧
        combined.take 4 = first.take 4 ∧
        (combined.take 40).drop 8 = (first.take 40).drop 8) ∧
    (∀ (f : List Nat) (sr ch bps : Nat),
      ((createWAVFile f sr ch bps).take 8).drop 4 = le32 (36 + f.length) ∧
      ((createWAVFile f sr ch bps).take 44).drop 40 = le32 f.length) := by
  have hlen44 : ∀ (l : List Nat), 44 ≤ l.length → (l.take 44).length = 44 := by
    intro l h; simp [List.length_take]; omega
  refine ⟨?_, ?_, ?_⟩
  · intro audioData arg chunks c hw hlen hsplit hmem
    have hne : audioData.isEmpty = false := by
      cases audioData with
      | nil => simp at hlen
      | cons x l => rfl
    rw [splitAudioIntoChunks, hne] at hsplit
    simp only [Bool.false_eq_true, if_false, hw, if_true] at hsplit
    cases hs : sliceLoop (effectiveChunkSize arg - 44)
        (audioData.drop 44).length (audioData.drop 44) with
    | none => rw [hs] at hsplit; simp at hsplit
    | some ds =>
      rw [hs] at hsplit
      simp only [Option.some.injEq] at hsplit
      subst hsplit
      obtain ⟨d, _, hcd⟩ := List.mem_map.mp hmem
      have hdec := rewrapChunk_decomp (hlen44 audioData hlen) d
      have hfields := headerFields
        (A := (audioData.take 44).take 4) (B := ((audioData.take 44).drop 8).take 32)
        (c := c) (d := d) (n := d.length)
        (by simp [List.take_take, List.length_take]; omega)
        (by simp [List.length_take, List.length_drop]; omega)
        (by rw [← hcd, hdec])
      obtain ⟨h1, h2, h3, h4, h5⟩ := hfields
      rw [h5]
      refine ⟨h1, h2, ?_, ?_⟩
      · rw [h3, List.take_take]; norm_num
      · rw [h4, take_44_drop_8_take_32]
  · intro first next rest combined hw hlen hcomb
    rw [combineAudioChunks] at hcomb
    rw [hw] at hcomb
    simp only [if_true] at hcomb
    simp only [Option.some.injEq] at hcomb
    set D := (((first :: next :: rest)).map (fun c => c.drop 44)).flatten with hD
    have hdec := mergedHeader_decomp (hlen44 first hlen) D.length
    have hshape : combined
        = (first.take 44).take 4 ++ le32 (36 + D.length)
            ++ ((first.take 44).drop 8).take 32 ++ le32 D.length ++ D := by
      rw [← hcomb, hdec]
    have hfields := headerFields
      (A := (first.take 44).take 4) (B := ((first.take 44).drop 8).take 32)
      (c := combined) (d := D) (n := D.length)
      (by simp [List.take_take, List.length_take]; omega)
      (by simp [List.length_take, List.length_drop]; omega)
      hshape
    obtain ⟨h1, h2, h3, h4, h5⟩ := hfields
    rw [h5]
    refine ⟨h1, h2, ?_, ?_⟩
    · rw [h3, List.take_take]; norm_num
    · rw [h4, take_44_drop_8_take_32]
  · intro f sr ch bps
    exact ⟨rfl, rfl⟩

/-- First fragment container for the C4 merge witness. -/
def mergeFirst : List Nat := createWAVFile [1, 2] 48000 1 16

/-- Second fragment container for the C4 merge witness. -/
def mergeSecond : List Nat := createWAVFile [3] 48000 1 16

/-- The merged WAV built from the two witness fragments. -/
def mergedSample : List Nat := (combineAudioChunks [mergeFirst, mergeSecond]).getD []

/-- The first delivery unit of the C2 sample split. -/
def sampleChunk : List Nat := sampleWavChunks.getD 0 []

/-- Witness for C4: the header fields at a concrete sliced unit and a
concrete merged WAV. -/
theorem c4_witness :
    ((sampleChunk.take 8).drop 4 = le32 (36 + (sampleChunk.drop 44).length) ∧
      (sampleChunk.take 44).drop 40 = le32 (sampleChunk.drop 44).length ∧
      sampleChunk.take 4 = sampleWav.take 4 ∧
      (sampleChunk.take 40).drop 8 = (sampleWav.take 40).drop 8) ∧
    ((mergedSample.take 8).drop 4 = le32 (36 + (mergedSample.drop 44).length) ∧
      (mergedSample.take 44).drop 40 = le32 (mergedSample.drop 44).length ∧
      mergedSample.take 4 = mergeFirst.take 4 ∧
      (mergedSample.take 40).drop 8 = (mergeFirst.take 40).drop 8) :=
  ⟨c4_header_correctness.1 sampleWav (some 46) sampleWavChunks sampleChunk
      (by decide) (by decide) (by decide) (by decide),
    c4_header_correctness.2.1 mergeFirst mergeSecond [] mergedSample
      (by decide) (by decide) (by decide)⟩

lemma multiportFallbackTrace_map_fst (chunks : List (List Nat)) (sent : List Nat) :
    (multiportFallbackTrace chunks sent).map Prod.fst
      = sent ++ List.range chunks.length := by
  simp only [multiportFallbackTrace, List.map_append, List.map_map, List.enum_map_fst]
  congr 1
  exact List.map_congr_left (fun i _ => rfl) |>.trans (List.map_id sent)

/-- C6 counterexample to the claim as stated: for the two-unit response
`[[1], [2]]` where lane 0's emit of unit 0 completed before lane 1's failing
emit, the fallback resends the full unit list, so unit 0 is transmitted
twice — contradicting "no unit of the response is transmitted to the client
more than once in total". -/
theorem c6_counterexample :
    ¬ (((multiportFallbackTrace [[1], [2]] [0]).map Prod.fst).count 0 ≤ 1) := by
  decide

/-- C6 (amended): after a transmission error during multi-lane delivery,
every delivery unit not yet transmitted is still delivered exactly once, via
the single-lane sequential fallback, in increasing index order; but the
fallback resends the ENTIRE unit list, so every unit already transmitted
before the error is transmitted twice in total. -/
theorem c6_fallback_redelivers_all (chunks : List (List Nat)) (sent : List Nat)
    (hnodup : sent.Nodup) (hbound : ∀ i ∈ sent, i < chunks.length) :
    (∀ i, i < chunks.length → i ∉ sent →
      ((multiportFallbackTrace chunks sent).map Prod.fst).count i = 1) ∧
    (∀ i ∈ sent,
      ((multiportFallbackTrace chunks sent).map Prod.fst).count i = 2) ∧
    (multiportFallbackTrace chunks sent).drop sent.length = chunks.enum ∧
    (chunks.enum.map Prod.fst).Pairwise (· < ·) := by
  refine ⟨?_, ?_, ?_, ?_⟩
  · intro i hi hni
    rw [multiportFallbackTrace_map_fst, List.count_append,
      List.count_eq_zero_of_not_mem hni,
      List.count_eq_one_of_mem (List.nodup_range _) (List.mem_range.mpr hi)]
  · intro i hi
    rw [multiportFallbackTrace_map_fst, List.count_append,
      List.count_eq_one_of_mem hnodup hi,
      List.count_eq_one_of_mem (List.nodup_range _)
        (List.mem_range.mpr (hbound i hi))]
  · rw [multiportFallbackTrace]
    exact List.drop_left' (by simp)
  · rw [List.enum_map_fst]
    exact List.pairwise_lt_range _

/-- Witness for the amended C6 at the concrete two-unit scenario. -/
theorem c6_witness :
    (∀ i, i < ([[1], [2]] : List (List Nat)).length → i ∉ ([0] : List Nat) →
      ((multiportFallbackTrace [[1], [2]] [0]).map Prod.fst).count i = 1) ∧
    (∀ i ∈ ([0] : List Nat),
      ((multiportFallbackTrace [[1], [2]] [0]).map Prod.fst).count i = 2) ∧
    (multiportFallbackTrace [[1], [2]] [0]).drop 1 = ([[1], [2]] : List (List Nat)).enum ∧
    (([[1], [2]] : List (List Nat)).enum.map Prod.fst).Pairwise (· < ·) :=
  c6_fallback_redelivers_all [[1], [2]] [0] (by decide) (by decide)

lemma pushAt_length (bs : List (List PortChunk)) (l : Nat) (x : PortChunk) :
    (pushAt bs l x).length = bs.length := by
  simp [pushAt]

lemma pushAt_getD_self (bs : List (List PortChunk)) (j : Nat) (x : PortChunk)
    (h : j < bs.length) : (pushAt bs j x).getD j [] = bs.getD j [] ++ [x] := by
  simp [pushAt, List.getD_eq_getElem?_getD, List.getElem?_set_self, h]

lemma pushAt_getD_ne (bs : List (List PortChunk)) (j l : Nat) (x : PortChunk)
    (h : l ≠ j) : (pushAt bs j x).getD l [] = bs.getD l [] := by
  simp [pushAt, List.getD_eq_getElem?_getD,
    List.getElem?_set_ne (fun hh => h hh.symm)]

/-- The distribution loop appends, to bucket `l`, exactly the items whose
index is `≡ l (mod laneCount)`, in order. -/
lemma foldl_pushAt_getD (L : Nat) (hL : 0 < L) :
    ∀ (items : List PortChunk) (bs : List (List PortChunk)), bs.length = L →
      ∀ l, l < L →
        ((items.foldl (fun bs x => pushAt bs (x.index % L) x) bs).getD l [])
          = bs.getD l [] ++ items.filter (fun x => x.index % L = l) := by
  intro items
  induction items with
  | nil => intro bs hbs l hl; simp
  | cons x rest ih =>
    intro bs hbs l hl
    rw [List.foldl_cons]
    rw [ih (pushAt bs (x.index % L) x) (by rw [pushAt_length, hbs]) l hl]
    by_cases hx : x.index % L = l
    · rw [hx, pushAt_getD_self bs l x (by omega)]
      simp [List.filter_cons, hx]
    · rw [pushAt_getD_ne bs (x.index % L) l x (fun hh => hx hh.symm)]
      simp [List.filter_cons, hx]

lemma distributeChunks_getD (chunks : List (List Nat)) (L : Nat) (hL : 0 < L)
    (l : Nat) (hl : l < L) :
    (distributeChunks chunks L).getD l []
      = (portChunkItems chunks).filter (fun x => x.index % L = l) := by
  rw [distributeChunks,
    foldl_pushAt_getD L hL (portChunkItems chunks) (List.replicate L [])
      (by simp) l hl]
  simp [List.getD_eq_getElem?_getD, List.getElem?_replicate, hl]

lemma countP_mod_range_mul (L l : Nat) (hl : l < L) (q : Nat) :
    (List.range (L * q)).countP (fun i => decide (i % L = l)) = q := by
  induction q with
  | zero => simp
  | succ n ihq =>
    rw [show L * (n + 1) = L * n + L from by ring, List.range_add,
      List.countP_append, ihq, List.countP_map]
    rw [List.countP_congr (q := fun a => a == l) (fun a ha => by
      have halt : a < L := List.mem_range.mp ha
      simp [Function.comp, Nat.mul_add_mod, Nat.mod_eq_of_lt halt])]
    have hcount : (List.range L).countP (fun a => a == l) = (List.range L).count l := rfl
    rw [hcount, List.count_eq_one_of_mem (List.nodup_range L) (List.mem_range.mpr hl)]

lemma countP_mod_range_block (L l q r : Nat) (hl : l < L) (hr : r ≤ L) :
    ((List.range r).map (L * q + ·)).countP (fun i => decide (i % L = l))
      = if l < r then 1 else 0 := by
  rw [List.countP_map]
  rw [List.countP_congr (q := fun a => a == l) (fun a ha => by
    have halt : a < r := List.mem_range.mp ha
    simp [Function.comp, Nat.mul_add_mod, Nat.mod_eq_of_lt (by omega : a < L)])]
  have hcount : (List.range r).countP (fun a => a == l) = (List.range r).count l := rfl
  rw [hcount]
  by_cases hlr : l < r
  · rw [List.count_eq_one_of_mem (List.nodup_range r) (List.mem_range.mpr hlr), if_pos hlr]
  · rw [List.count_eq_zero_of_not_mem (fun hmem => hlr (List.mem_range.mp hmem)),
      if_neg hlr]

/-- Counting the residue class of `l` below `M`. -/
lemma countP_mod_range (M L l : Nat) (hL : 0 < L) (hl : l < L) :
    (List.range M).countP (fun i => decide (i % L = l))
      = M / L + (if l < M % L then 1 else 0) := by
  conv_lhs => rw [show M = L * (M / L) + M % L from (Nat.div_add_mod M L).symm]
  rw [List.range_add, List.countP_append, countP_mod_range_mul L l hl,
    countP_mod_range_block L l (M / L) (M % L) hl (le_of_lt (Nat.mod_lt M hL))]

lemma distributeChunks_bucket_length (chunks : List (List Nat)) (L : Nat)
    (hL : 0 < L) (l : Nat) (hl : l < L) :
    ((distributeChunks chunks L).getD l []).length
      = chunks.length / L + (if l < chunks.length % L then 1 else 0) := by
  rw [distributeChunks_getD chunks L hL l hl]
  rw [show ((portChunkItems chunks).filter (fun x => x.index % L = l)).length
      = (portChunkItems chunks).countP (fun x => decide (x.index % L = l)) from by
    simp [List.countP_eq_length_filter]]
  rw [portChunkItems, List.countP_map]
  rw [show ((fun (x : PortChunk) => decide (x.index % L = l)) ∘
      (fun (p : Nat × List Nat) =>
        ({ index := p.1, chunk := p.2,
           isLast := decide (p.1 = chunks.length - 1) } : PortChunk)))
      = ((fun i => decide (i % L = l)) ∘ Prod.fst) from rfl]
  rw [← List.countP_map, List.enum_map_fst]
  exact countP_mod_range chunks.length L l hL hl

lemma ceil_div_of_pos_mod {M L : Nat} (hL : 0 < L) (hr : 0 < M % L) :
    (M + L - 1) / L = M / L + 1 := by
  have hM : L * (M / L) + M % L = M := Nat.div_add_mod M L
  have hrL : M % L < L := Nat.mod_lt M hL
  have hglue : L * (M / L + 1) = L * (M / L) + L := by ring
  have h1 : M + L - 1 = L * (M / L + 1) + (M % L - 1) := by omega
  rw [h1, Nat.mul_add_div hL]
  have h2 : (M % L - 1) / L = 0 := Nat.div_eq_of_lt (by omega)
  omega

/-- C7: lane fairness of the round-robin distribution.  With `M` units and
`L` lanes (unit `i` on lane `i % L`): every lane's bucket has either
`⌊M / L⌋` or `⌈M / L⌉ = (M + L - 1) / L` entries; every bucket entry's index
is below `M` and congruent to its lane number mod `L` (so no index sits in
two lanes); and every index `i < M` appears, with its chunk, in lane
`i % L` — the lanes' index sets partition `{0 .. M-1}`. -/
theorem c7_lane_fairness (chunks : List (List Nat)) (L : Nat) (hL : 0 < L) :
    (∀ l, l < L →
      ((distributeChunks chunks L).getD l []).length = chunks.length / L ∨
      ((distributeChunks chunks L).getD l []).length = (chunks.length + L - 1) / L) ∧
    (∀ l, l < L → ∀ x ∈ (distributeChunks chunks L).getD l [],
      x.index < chunks.length ∧ x.index % L = l) ∧
    (∀ i, i < chunks.length →
      ∃ x ∈ (distributeChunks chunks L).getD (i % L) [],
        x.index = i ∧ x.chunk = chunks.getD i []) := by
  refine ⟨?_, ?_, ?_⟩
  · intro l hl
    rw [distributeChunks_bucket_length chunks L hL l hl]
    by_cases hlr : l < chunks.length % L
    · right
      rw [if_pos hlr, ceil_div_of_pos_mod hL (by omega)]
    · left
      rw [if_neg hlr, Nat.add_zero]
  · intro l hl x hx
    rw [distributeChunks_getD chunks L hL l hl] at hx
    obtain ⟨hmem, hpred⟩ := List.mem_filter.mp hx
    obtain ⟨p, hp, hfx⟩ := List.mem_map.mp hmem
    have hidx : p.1 < chunks.length := by
      have := List.mem_enum_iff_getElem?.mp hp
      exact (List.getElem?_eq_some.mp this).1
    constructor
    · rw [← hfx]; exact hidx
    · exact of_decide_eq_true hpred
  · intro i hi
    have hmodlt : i % L < L := Nat.mod_lt i hL
    rw [distributeChunks_getD chunks L hL (i % L) hmodlt]
    refine ⟨{ index := i, chunk := chunks.getD i [],
              isLast := decide (i = chunks.length - 1) }, ?_, rfl, rfl⟩
    rw [List.mem_filter]
    constructor
    · rw [portChunkItems]
      apply List.mem_map.mpr
      refine ⟨(i, chunks.getD i []), ?_, rfl⟩
      apply List.mem_enum_iff_getElem?.mpr
      simp [List.getElem?_eq_getElem hi, List.getD_eq_getElem?_getD,
        List.getElem?_eq_getElem hi]
    · simp

/-- Witness for C7 at five units over the default four lanes. -/
theorem c7_witness :
    (∀ l, l < 4 →
      ((distributeChunks [[1], [2], [3], [4], [5]] 4).getD l []).length
          = ([[1], [2], [3], [4], [5]] : List (List Nat)).length / 4 ∨
      ((distributeChunks [[1], [2], [3], [4], [5]] 4).getD l []).length
          = (([[1], [2], [3], [4], [5]] : List (List Nat)).length + 4 - 1) / 4) ∧
    (∀ l, l < 4 → ∀ x ∈ (distributeChunks [[1], [2], [3], [4], [5]] 4).getD l [],
      x.index < ([[1], [2], [3], [4], [5]] : List (List Nat)).length ∧
      x.index % 4 = l) ∧
    (∀ i, i < ([[1], [2], [3], [4], [5]] : List (List Nat)).length →
      ∃ x ∈ (distributeChunks [[1], [2], [3], [4], [5]] 4).getD (i % 4) [],
        x.index = i ∧ x.chunk = ([[1], [2], [3], [4], [5]] : List (List Nat)).getD i []) :=
  c7_lane_fairness [[1], [2], [3], [4], [5]] 4 (by decide)

/-- The input events of an upstream burst: each `(t, bytes)` pair becomes a
fragment event at time `t`. -/
def fragmentEvents (tfs : List (Nat × List Nat)) : List (Nat × LiveEvent) :=
  tfs.map (fun p => (p.1, LiveEvent.fragment p.2))

/-- The last element of a time list, with `t` as the value for the empty list. -/
def lastTime (t : Nat) : List Nat → Nat
  | [] => t
  | u :: us => lastTime u us

/-- Folding a gap-bounded fragment burst over `applyEvent`: no intermediate
timer fires, every fragment is WAV-wrapped and appended, and the deadline
tracks the last arrival. -/
lemma foldl_fragments (tfs : List (Nat × List Nat)) :
    ∀ (tprev : Nat) (B : List (List Nat)) (intr : Bool)
      (outp : List (Nat × List Nat)),
      List.Chain (fun a b => a ≤ b ∧ b < a + 2000) tprev (tfs.map Prod.fst) →
      (fragmentEvents tfs).foldl applyEvent
          { buf := B, deadline := some (tprev + 2000),
            interrupted := intr, out := outp }
        = { buf := B ++ tfs.map (fun p => createWAVFile p.2 48000 1 16),
            deadline := some (lastTime tprev (tfs.map Prod.fst) + 2000),
            interrupted := intr, out := outp } := by
  induction tfs with
  | nil => intro tprev B intr outp _; simp [fragmentEvents, lastTime]
  | cons p rest ih =>
    intro tprev B intr outp hchain
    obtain ⟨⟨hle, hlt⟩, hchainrest⟩ := List.chain_cons.mp hchain
    rw [fragmentEvents, List.map_cons, List.foldl_cons]
    have happly : applyEvent
        { buf := B, deadline := some (tprev + 2000),
          interrupted := intr, out := outp } (p.1, LiveEvent.fragment p.2)
        = { buf := B ++ [createWAVFile p.2 48000 1 16],
            deadline := some (p.1 + 2000), interrupted := intr, out := outp } := by
      rw [applyEvent, fireIfDue]
      simp only [if_neg (by omega : ¬ (tprev + 2000 ≤ p.1))]
    rw [happly, show (fun q => (q.1, LiveEvent.fragment q.2)) = fun q =>
        ((q : Nat × List Nat).1, LiveEvent.fragment q.2) from rfl]
    rw [show (rest.map fun q => (q.1, LiveEvent.fragment q.2))
        = fragmentEvents rest from rfl]
    rw [ih p.1 (B ++ [createWAVFile p.2 48000 1 16]) intr outp hchainrest]
    simp [lastTime]

/-- `combineAudioChunks` over a non-empty list of `createWAVFile`-wrapped
fragments returns a response whose raw sample region is the concatenation of
the fragments. -/
lemma combine_wrapped (frags : List (List Nat)) (hne : frags ≠ []) :
    ∃ resp,
      combineAudioChunks (frags.map (fun f => createWAVFile f 48000 1 16))
        = some resp ∧
      resp.drop 44 = frags.flatten := by
  cases frags with
  | nil => exact absurd rfl hne
  | cons f rest =>
    cases rest with
    | nil =>
      refine ⟨createWAVFile f 48000 1 16, ?_, ?_⟩
      · rfl
      · rw [createWAVFile_drop_44]; simp
    | cons g rs =>
      rw [List.map_cons, List.map_cons, combineAudioChunks]
      rw [isWAV_createWAVFile, if_pos rfl]
      set w1 := createWAVFile f 48000 1 16 with hw1
      set D := ((w1 :: createWAVFile g 48000 1 16 ::
          rs.map (fun f => createWAVFile f 48000 1 16)).map
            (fun c => c.drop 44)).flatten with hD
      refine ⟨mergedHeader (w1.take 44) D.length ++ D, rfl, ?_⟩
      have hlen : (mergedHeader (w1.take 44) D.length).length = 44 := by
        rw [mergedHeader_decomp (by
          rw [hw1, createWAVFile_take_44]; exact wavHeader44_length _ _ _ _)]
        simp [List.length_take, List.length_drop, le32_length, hw1,
          createWAVFile_take_44, wavHeader44_length]
      rw [List.drop_left' hlen, hD]
      simp only [List.map_cons, List.map_map]
      rw [show ((fun c => List.drop 44 c) ∘ fun f => createWAVFile f 48000 1 16)
          = id from funext (fun f => createWAVFile_drop_44 f 48000 1 16)]
      simp [hw1, createWAVFile_drop_44]

/-- C5: idle-timeout completion.  If the upstream emits `N ≥ 1` fragments
with gaps strictly below the 2000 ms idle timeout and then goes silent, with
no new input or interruption, exactly one complete audio response is
produced, it is produced exactly when the idle timeout has elapsed since the
last fragment (at `lastArrival + 2000`, not before), and its raw sample
region is the concatenation of all fragments' sample data in arrival
order. -/
theorem c5_idle_timeout_completion (tfs : List (Nat × List Nat)) (hne : tfs ≠ [])
    (hchain : List.Chain' (fun a b => a ≤ b ∧ b < a + 2000) (tfs.map Prod.fst)) :
    ∃ resp,
      (runService (fragmentEvents tfs)).out
        = [(lastTime 0 (tfs.map Prod.fst) + 2000, resp)] ∧
      resp.drop 44 = (tfs.map Prod.snd).flatten := by
  cases tfs with
  | nil => exact absurd rfl hne
  | cons p rest =>
    rw [List.map_cons] at hchain
    have hch : List.Chain (fun a b => a ≤ b ∧ b < a + 2000) p.1
        (rest.map Prod.fst) := hchain
    obtain ⟨resp, hcombine, hdrop⟩ :=
      combine_wrapped (p.2 :: rest.map Prod.snd) (by simp)
    have hbuf : ([createWAVFile p.2 48000 1 16]
          ++ rest.map (fun q => createWAVFile q.2 48000 1 16))
        = (p.2 :: rest.map Prod.snd).map
            (fun f => createWAVFile f 48000 1 16) := by
      simp only [List.map_map, List.map_cons]
      rfl
    refine ⟨resp, ?_, ?_⟩
    · rw [runService, fragmentEvents, List.map_cons, List.foldl_cons]
      have happly : applyEvent
          { buf := [], deadline := none, interrupted := false, out := [] }
          (p.1, LiveEvent.fragment p.2)
          = { buf := [createWAVFile p.2 48000 1 16],
              deadline := some (p.1 + 2000), interrupted := false, out := [] } := rfl
      rw [happly,
        show (rest.map fun q => (q.1, LiveEvent.fragment q.2))
          = fragmentEvents rest from rfl,
        foldl_fragments rest p.1 [createWAVFile p.2 48000 1 16] false [] hch]
      have hfin : (finalizeRun
          { buf := [createWAVFile p.2 48000 1 16]
              ++ rest.map (fun q => createWAVFile q.2 48000 1 16),
            deadline := some (lastTime p.1 (rest.map Prod.fst) + 2000),
            interrupted := false, out := [] }).out
          = [(lastTime p.1 (rest.map Prod.fst) + 2000,
              (combineAudioChunks ([createWAVFile p.2 48000 1 16]
                ++ rest.map (fun q => createWAVFile q.2 48000 1 16))).getD [])] := rfl
      rw [hfin, hbuf, hcombine, Option.getD_some]
      rfl
    · rw [hdrop]
      simp

/-- Witness for C5: three fragments at 0 ms, 100 ms and 200 ms. -/
theorem c5_witness :
    ∃ resp,
      (runService (fragmentEvents [(0, [1]), (100, [2]), (200, [3])])).out
        = [(lastTime 0 (([(0, [1]), (100, [2]), (200, [3])] :
            List (Nat × List Nat)).map Prod.fst) + 2000, resp)] ∧
      resp.drop 44 = (([(0, [1]), (100, [2]), (200, [3])] :
          List (Nat × List Nat)).map Prod.snd).flatten :=
  c5_idle_timeout_completion [(0, [1]), (100, [2]), (200, [3])]
    (by decide)
    (by exact .cons ⟨by omega, by omega⟩ (.cons ⟨by omega, by omega⟩ .nil))
